import Mathlib

/-!
# Verification of the Halfpipe file-collection, metadata-wizard and TUI logic

This file gives a shallow embedding of the Halfpipe components under
verification:

* `halfpipe/ingest/collect.py` — `collect_events`, `collect_pe_dir`,
  `collect_fieldmaps`, `collect_bold_files`;
* `halfpipe/ui/metadata.py` — `CheckMetadataStep` (setup / run / next);
* `src/halfpipe/tui/preprocessing/base.py` — the initial-volumes-removal
  modal and its dismissal handler;
* `src/halfpipe/tui/utils/filebrowser.py` — `FileBrowser.update_input`;
* `src/halfpipe/tui/feature_widgets/task_based/taskbased.py` —
  `SwitchWithSelect.compose`.

The tagged-file database, the BIDS path translator (`BidsDatabase`), the
direction-code canonicalization utility and the external `check_pes`
compatibility check are not part of the embedded sources; they are modelled
as oracles (record fields), faithful to the call sites and, where the
repository code is missing, to the specification's description of their
contracts.  Python exceptions are modelled with `Except String`; a Python
function that may raise is embedded as an `Except`-valued function and a
caught exception corresponds to a handled `.error` case.
-/

namespace Halfpipe

/-- Lexicographic comparison of character lists by code point, the order
Python's `sorted` uses on `str` values. -/
def charListLe : List Char → List Char → Bool
  | [], _ => true
  | _ :: _, [] => false
  | a :: as, b :: bs => if a < b then true else if b < a then false else charListLe as bs

/-- Python's `≤` on path strings (lexicographic by code point). -/
def pathLe (a b : String) : Bool := charListLe a.data b.data

theorem charListLe_refl (a : List Char) : charListLe a a = true := by
  induction a with
  | nil => rfl
  | cons x xs ih => simp [charListLe, lt_irrefl, ih]

theorem charListLe_total (a b : List Char) :
    charListLe a b = true ∨ charListLe b a = true := by
  induction a generalizing b with
  | nil => left; rfl
  | cons x xs ih =>
    cases b with
    | nil => right; rfl
    | cons y ys =>
      rcases lt_trichotomy x y with h | h | h
      · left; simp [charListLe, h]
      · subst h
        rcases ih ys with h2 | h2
        · left; simp [charListLe, lt_irrefl, h2]
        · right; simp [charListLe, lt_irrefl, h2]
      · right; simp [charListLe, h]

theorem charListLe_trans : ∀ {a b c : List Char},
    charListLe a b = true → charListLe b c = true → charListLe a c = true
  | [], _, _, _, _ => rfl
  | _ :: _, [], _, hab, _ => by simp [charListLe] at hab
  | _ :: _, _ :: _, [], _, hbc => by simp [charListLe] at hbc
  | a :: as, b :: bs, c :: cs, hab, hbc => by
    simp only [charListLe] at hab hbc ⊢
    rcases lt_trichotomy a b with h1 | h1 | h1
    · rcases lt_trichotomy b c with h2 | h2 | h2
      · simp [lt_trans h1 h2]
      · subst h2; simp [h1]
      · simp [h2, asymm h2] at hbc
    · subst h1
      rcases lt_trichotomy a c with h2 | h2 | h2
      · simp [h2]
      · subst h2
        simp only [lt_irrefl, if_false] at hab hbc ⊢
        exact charListLe_trans hab hbc
      · simp [h2, asymm h2] at hbc
    · simp [h1, asymm h1] at hab

/-- The relation `pathLe` as a `Prop`-valued order, used for sorting. -/
instance : IsTotal String (fun a b => pathLe a b = true) :=
  ⟨fun a b => charListLe_total a.data b.data⟩

instance : IsTrans String (fun a b => pathLe a b = true) :=
  ⟨fun _ _ _ hab hbc => charListLe_trans hab hbc⟩

instance : IsRefl String (fun a b => pathLe a b = true) :=
  ⟨fun a => charListLe_refl a.data⟩

/-- Python `sorted` on a list of path strings. -/
def sortPaths (l : List String) : List String :=
  List.insertionSort (fun a b => pathLe a b = true) l

theorem sortPaths_perm (l : List String) : List.Perm (sortPaths l) l :=
  List.perm_insertionSort _ l

theorem mem_sortPaths {l : List String} {x : String} :
    x ∈ sortPaths l ↔ x ∈ l :=
  List.mem_insertionSort _

theorem sortPaths_sorted (l : List String) :
    (sortPaths l).Sorted (fun a b => pathLe a b = true) :=
  List.sorted_insertionSort _ l

/-- The tagged-file database, modelled as an oracle.  `tagval file tag`
returns the tag's value or `none` when unset (Python `None`).
`associations file kwargs` models `database.associations(file, **kwargs)`:
the keyword filters are passed as a list of `(tag, value)` pairs where the
value is `none` when the Python call passes `None`; the result is `none`
when the Python call returns `None`.  `metadata file key` returns the
cached metadata value after `fillmetadata` (the back-fill itself is a pure
cache warm-up, so the oracle exposes only the post-fill view). -/
structure Database where
  tagval : String → String → Option String
  associations : String → List (String × Option String) → Option (List String)
  metadata : String → String → Option String

/-- One element of the tuple returned by `collect_events`: a plain path, or
a `(path, condition)` pair for a `".txt"` candidate. -/
inductive CondFile where
  | plain (path : String)
  | withCondition (path condition : String)
deriving DecidableEq, Repr

/-- The candidate path carried by a `CondFile` entry. -/
def CondFile.path : CondFile → String
  | .plain p => p
  | .withCondition p _ => p

/-- The association query issued by `collect_events`:
`database.associations(source_file, task=..., datatype="func",
suffix="events")`. -/
def eventAssociations (db : Database) (sourceFile : String) :
    Option (List String) :=
  db.associations sourceFile
    [("task", db.tagval sourceFile "task"),
     ("datatype", some "func"), ("suffix", some "events")]

/-- The per-candidate body of the `collect_events` loop: the same-subject
filter (`continue` ↦ `none`), then the `".txt"` pairing; the
`assert isinstance(condition, str)` is an `AssertionError` when the
`condition` tag is unset. -/
def processCandidate (db : Database) (sourceSub : Option String)
    (c : String) : Except String (Option CondFile) :=
  match db.tagval c "sub" with
  | some s =>
    if some s ≠ sourceSub then .ok none
    else processKeep db c
  | none => processKeep db c
where
  /-- The candidate is kept: pair `".txt"` files with their condition. -/
  processKeep (db : Database) (c : String) : Except String (Option CondFile) :=
    if db.tagval c "extension" = some ".txt" then
      match db.tagval c "condition" with
      | some cond => .ok (some (.withCondition c cond))
      | none => .error "AssertionError"
    else
      .ok (some (.plain c))

/-- The `for candidate in sorted(set(candidates))` loop of
`collect_events`, accumulating the kept condition files in order. -/
def collectEventsLoop (db : Database) (sourceSub : Option String) :
    List String → Except String (List CondFile)
  | [] => .ok []
  | c :: rest => do
    let r ← processCandidate db sourceSub c
    let tail ← collectEventsLoop db sourceSub rest
    match r with
    | some cf => .ok (cf :: tail)
    | none => .ok tail

/-- Embedding of `collect_events(database, source_file)`
(`halfpipe/ingest/collect.py`).  Returns `.ok none` for the Python `None`
result, `.ok (some files)` for a returned tuple, and `.error` when an
assertion escapes. -/
def collect_events (db : Database) (sourceFile : String) :
    Except String (Option (List CondFile)) :=
  match eventAssociations db sourceFile with
  | none => .ok none
  | some cands =>
    if cands.length = 0 then .ok none
    else
      match collectEventsLoop db (db.tagval sourceFile "sub")
          (sortPaths cands.dedup) with
      | .error e => .error e
      | .ok files =>
        if files.length > 0 then .ok (some files) else .ok none

/-! ## `collect_pe_dir` and `collect_fieldmaps` -/

/-- Environment for the field-map collection functions.  `db` is the
tagged-file database.  `canonicalize m f` — modelled from the spec: the
direction-code canonicalization utility (`canonicalize_direction_code`,
whose source is not part of the embedded files) maps a raw
phase-encoding-direction metadata value (possibly absent) and the file it
belongs to either to a canonical direction code or to a `ValueError`.
`checkPes fmaps dir` — the external `sdcflows` pairing-compatibility check:
`.ok` when the epi field maps' directions are compatible with the BOLD
run's direction, `.error` for its `ValueError`. -/
structure FmapEnv where
  db : Database
  canonicalize : Option String → String → Except String String
  checkPes : List (String × String) → String → Except String Unit

/-- Embedding of `collect_pe_dir(database, c)`: back-fill the
`phase_encoding_direction` metadata (a cache warm-up, represented by the
`metadata` oracle), then canonicalize it; may fail with a `ValueError`. -/
def collect_pe_dir (env : FmapEnv) (c : String) : Except String String :=
  env.canonicalize (env.db.metadata c "phase_encoding_direction") c

/-- The `magnitude_map` dictionary of `collect_fieldmaps`. -/
def magnitude_map : String → Option (List String)
  | "phase1" => some ["magnitude1", "magnitude2"]
  | "phase2" => some ["magnitude1", "magnitude2"]
  | "phasediff" => some ["magnitude1", "magnitude2"]
  | "fieldmap" => some ["magnitude"]
  | _ => none

/-- The candidate `suffix` tag, after the `assert isinstance(suffix, str)`
has been checked (default ""). -/
def suffixOf (db : Database) (c : String) : String :=
  (db.tagval c "suffix").getD ""

/-- Whether candidate `c` is an incomplete phase-style field map: its
suffix requires magnitude images and no candidate carries one of the
required magnitude suffixes. -/
def isIncompleteB (db : Database) (candidates : List String) (c : String) :
    Bool :=
  match magnitude_map (suffixOf db c) with
  | none => false
  | some mags => ! candidates.any (fun d => decide (suffixOf db d ∈ mags))

/-- The first filtering pass of `collect_fieldmaps`
(`candidates -= incomplete`). -/
def magnitudePass (db : Database) (candidates : List String) : List String :=
  candidates.filter (fun c => ! isIncompleteB db candidates c)

/-- The association query issued by `collect_fieldmaps`:
`datatype="fmap"`, same subject, and same session when the BOLD file has
one. -/
def fmapAssociations (env : FmapEnv) (boldFilePath : String) :
    Option (List String) :=
  let sub := env.db.tagval boldFilePath "sub"
  let filters :=
    match env.db.tagval boldFilePath "ses" with
    | some ses => [("sub", sub), ("ses", some ses)]
    | none => [("sub", sub)]
  env.db.associations boldFilePath (("datatype", some "fmap") :: filters)

/-- The epi candidates surviving the magnitude pass (the
`for c in candidates: if suffix != "epi": continue` loop). -/
def epiCandidates (env : FmapEnv) (cs : List String) : List String :=
  (magnitudePass env.db cs.dedup).filter
    (fun c => suffixOf env.db c == "epi")

/-- The candidate set after the pepolar pass: when there are epi field
maps, `check_pes(epi_fmaps, collect_pe_dir(database, bold_file_path))`
runs inside a `try` — a `ValueError` from the compatibility check *or*
from canonicalizing the BOLD file's own direction is caught and removes
the whole epi set (`candidates -= incomplete`); otherwise the candidates
of the magnitude pass are kept unchanged. -/
def pepolarResult (env : FmapEnv) (boldFilePath : String)
    (cs : List String) (epi_fmaps : List (String × String)) : List String :=
  if epi_fmaps.isEmpty then magnitudePass env.db cs.dedup
  else
    match (collect_pe_dir env boldFilePath).bind
        (fun boldDir => env.checkPes epi_fmaps boldDir) with
    | .ok _ => magnitudePass env.db cs.dedup
    | .error _ =>
      (magnitudePass env.db cs.dedup).filter
        (fun c => decide (c ∉ epiCandidates env cs))

/-- The `epi_fmaps.append((c, collect_pe_dir(database, c)))` loop: pairs
each epi candidate with its canonicalized phase-encoding direction.  This
happens *outside* the `try` block, so a `ValueError` raised here
escapes. -/
def epiPairs (env : FmapEnv) :
    List String → Except String (List (String × String))
  | [] => .ok []
  | c :: rest =>
    match collect_pe_dir env c with
    | .error e => .error e
    | .ok d =>
      match epiPairs env rest with
      | .error e => .error e
      | .ok tail => .ok ((c, d) :: tail)

/-- The body of `collect_fieldmaps` once the association query returned a
candidate list `cs`.  The `assert isinstance(suffix, str)` over the
candidate set is an `AssertionError`. -/
def collectFieldmapsBody (env : FmapEnv) (boldFilePath : String)
    (cs : List String) : Except String (List String) :=
  if cs.dedup.any (fun c => (env.db.tagval c "suffix").isNone) then
    .error "AssertionError"
  else
    match epiPairs env (epiCandidates env cs) with
    | .error e => .error e
    | .ok epi_fmaps =>
      .ok (sortPaths (pepolarResult env boldFilePath cs epi_fmaps))

/-- Embedding of `collect_fieldmaps(database, bold_file_path, silent)`
(`halfpipe/ingest/collect.py`).  The `silent` flag only controls logging
and has no effect on the returned value, so it is omitted. -/
def collect_fieldmaps (env : FmapEnv) (boldFilePath : String) :
    Except String (List String) :=
  match fmapAssociations env boldFilePath with
  | none => .ok []
  | some cs => collectFieldmapsBody env boldFilePath cs

/-! ## `collect_bold_files` -/

/-- Environment for `collect_bold_files`.  `fm` carries the database and
field-map oracles.  `nvol f` is the volume count of a 4-D image
(`halfpipe.utils.image.nvol`, an image-header read, modelled as an
oracle).  `bidsPath f` — modelled from the spec: the BIDS Path Translator
(`BidsDatabase`, whose source is not part of the embedded files) derives a
canonical BIDS path from a file's tags via `put` followed by `to_bids`, or
fails with a `ValueError` on a tag collision; `none` models that failure. -/
structure BoldEnv where
  fm : FmapEnv
  nvol : String → Nat
  bidsPath : String → Option String

/-- The first loop of `collect_bold_files`: for each candidate BOLD file,
require an associated T1w anatomical (else drop the run), then attach the
run itself, its T1w files, its field maps (a raised error propagates) and
its sbref files, building the insertion-ordered
`bold_file_paths_dict`. -/
def collectBoldStep1 (env : BoldEnv) :
    List String → Except String (List (String × List String))
  | [] => .ok []
  | boldFilePath :: rest =>
    match env.fm.db.associations boldFilePath
        [("datatype", some "anat"),
         ("sub", env.fm.db.tagval boldFilePath "sub")] with
    | none => collectBoldStep1 env rest
    | some t1ws =>
      match collect_fieldmaps env.fm boldFilePath with
      | .error e => .error e
      | .ok fmaps =>
        match collectBoldStep1 env rest with
        | .error e => .error e
        | .ok tail =>
          .ok ((boldFilePath, boldFilePath :: (t1ws ++ fmaps ++
            (env.fm.db.associations boldFilePath
              [("datatype", some "func"), ("suffix", some "sbref"),
               ("sub", env.fm.db.tagval boldFilePath "sub")]).getD []))
            :: tail)

/-- The members of the duplicate group for canonical path `bp` among the
surviving keys: exactly the runs canonicalizing to `bp`.  This models one
entry `bids_dict[bids_path]` of the grouping loop (a run whose
canonicalization fails is skipped by the `except ValueError: continue` and
lands in no group). -/
def groupMembers (env : BoldEnv) (keys : List String) (bp : String) :
    List String :=
  keys.filter (fun p => env.bidsPath p = some bp)

/-- The grouping of surviving runs by canonical BIDS path (`bids_dict`);
group contents do not depend on Python's dict/set iteration order, so the
groups are listed in first-occurrence order of their canonical paths. -/
def boldGroups (env : BoldEnv) (keys : List String) :
    List (String × List String) :=
  (keys.filterMap env.bidsPath).dedup.map
    (fun bp => (bp, groupMembers env keys bp))

/-- `max(nvol_dict.values())` over a duplicate group. -/
def maxNvol (env : BoldEnv) (members : List String) : Nat :=
  (members.map env.nvol).foldl max 0

/-- The runs of a group tied at the maximum volume count (`selected`). -/
def tiedAtMax (env : BoldEnv) (members : List String) : List String :=
  members.filter (fun p => env.nvol p = maxNvol env members)

/-- The last element of a list (`""` for an empty list). -/
def lastOfList : List String → String
  | [] => ""
  | [x] => x
  | _ :: x :: xs => lastOfList (x :: xs)

/-- `sorted(selected)[-1]`: the alphabetically-last path of a list. -/
def sortedLast (l : List String) : String :=
  lastOfList (sortPaths l)

/-- The single run a duplicate group resolves to: the unique run with the
maximum volume count, or, on a tie, the alphabetically-last of the tied
runs. -/
def selectGroup (env : BoldEnv) (members : List String) : String :=
  let sel := tiedAtMax env members
  if 1 < sel.length then sortedLast sel else sel.headD ""

/-- The duplicate-resolution pass for one group: groups of size one are
skipped; otherwise every member other than the selected run is deleted
from the mapping. -/
def resolveGroup (env : BoldEnv) (members : List String)
    (dict : List (String × List String)) : List (String × List String) :=
  if members.length = 1 then dict
  else dict.filter
    (fun e => decide (e.1 ∉ members ∨ e.1 = selectGroup env members))

/-- Embedding of `collect_bold_files(database, setting_factory,
feature_factory)` (`halfpipe/ingest/collect.py`).  `sources` is the union
`setting_factory.source_files | feature_factory.source_files` (a set,
hence deduplicated).  The duplicate-resolution loop deletes, in each group
of runs sharing a canonical BIDS path, every run but the selected one;
groups are disjoint, so the iteration order of `bids_dict.values()` does
not affect the result. -/
def collect_bold_files (env : BoldEnv) (sources : List String) :
    Except String (List (String × List String)) :=
  match collectBoldStep1 env sources.dedup with
  | .error e => .error e
  | .ok dict =>
    .ok ((boldGroups env (dict.map Prod.fst)).foldl
      (fun d g => resolveGroup env g.2 d) dict)

/-! ## `CheckMetadataStep` (`halfpipe/ui/metadata.py`) -/

/-- `display_str` from `halfpipe/ui/metadata.py`; `humanize` is the
external text-humanization utility, passed as an oracle. -/
def display_str (humanize : String → String) (x : String) : String :=
  if x = "MNI152NLin6Asym" then
    "MNI ICBM 152 non-linear 6th Generation Asymmetric (FSL)"
  else if x = "MNI152NLin2009cAsym" then
    "MNI ICBM 2009c Nonlinear Asymmetric"
  else humanize x

/-- `np.unique(vals, return_counts=True)` on a list of strings: the
distinct values in ascending order, each with its occurrence count. -/
def npUnique (vals : List String) : List (String × Nat) :=
  (sortPaths vals.dedup).map (fun v => (v, vals.count v))

/-- The observable outcome of `CheckMetadataStep.setup`: the missing flag,
the pre-filled suggestion, the displayed `(value, count)` rows, the
ellipsis marker, and whether a Yes/No input view was presented. -/
structure CheckState where
  isMissing : Bool
  suggestion : Option String
  rows : List (String × Nat)
  ellipsis : Bool
  hasInputView : Bool
deriving DecidableEq, Repr

/-- Embedding of `CheckMetadataStep.setup`.  `vals` is the list of
(formatted) metadata values of the resolved files, `none` for an absent
value.  When every value is absent the step is marked missing and nothing
is presented.  Otherwise the source computes
`uniquevals, counts = np.unique(vals, return_counts=True)` and
`order = np.argsort(counts)`, but indexes both display loops with `i`
directly (`counts[i]`, `uniquevals[i]`), so `order` is never applied: the
rows appear in ascending *value* order, and the suggestion is the display
string of `uniquevals[0]`.  A list mixing absent and present values makes
`np.unique` compare `None` with `str` (a `TypeError`). -/
def checkMetadataSetup (humanize : String → String) (shouldSkip : Bool)
    (vals : List (Option String)) : Except String CheckState :=
  if shouldSkip then
    .ok ⟨true, none, [], false, false⟩
  else if vals.all Option.isNone then
    .ok ⟨true, none, [], false, false⟩
  else if vals.any Option.isNone then
    .error "TypeError"
  else
    let u := npUnique (vals.filterMap id)
    .ok { isMissing := false,
          suggestion := u.head?.map (fun p => display_str humanize p.1),
          rows := (u.take 10).map (fun p => (display_str humanize p.1, p.2)),
          ellipsis := decide (u.length > 10),
          hasInputView := true }

/-- The step the wizard moves to after `CheckMetadataStep`. -/
inductive NextStep where
  | continuation
  | setMetadata (suggestion : Option String)
  | halted
deriving DecidableEq, Repr

/-- Embedding of the first `run`/`next` round of `CheckMetadataStep`.
Modelled from the spec, the step framework (whose source is not among the
embedded files) calls `setup`, then `run`; a `False` from `run` halts the
wizard, otherwise `next` chooses the following step.  When the step is
missing, `run` returns `is_first_run` (`True` on the first run) without
any interaction, so `choice` stays `None`; otherwise the Yes/No view is
presented and a dismissed view (`None`) halts.  `next` then goes to the
continuation step on `"Yes"` (or when skipping) and otherwise to a
`SetMetadataStep` carrying the suggestion. -/
def checkMetadataFirstRun (shouldSkip : Bool) (st : CheckState)
    (userChoice : Option String) : NextStep :=
  let choice : Option String := if st.isMissing then none else userChoice
  if st.isMissing = false ∧ choice = none then .halted
  else if choice = some "Yes" ∨ shouldSkip then .continuation
  else .setMetadata st.suggestion

/-! ## Preprocessing widget (`src/halfpipe/tui/preprocessing/base.py`) -/

/-- The `global_settings["dummy_scans"]` entry: absent, the Python `None`
auto-detect sentinel, or an integer count. -/
inductive DummyScans where
  | unset
  | auto
  | count (n : Int)
deriving DecidableEq, Repr

/-- The observable state of the `Preprocessing` widget touched by the
initial-volumes-removal controls: the `dummy_scans` entry of
`ctx.spec.global_settings`, the `remove_volumes_value` static text and its
border, and the widgets toggled by the `via_algorithm_switch`. -/
structure PreprocessingState where
  dummy_scans : DummyScans
  removeVolumesDisplay : String
  removeVolumesBorderGreen : Bool
  manualLabel : String
  editButtonVisible : Bool
  removeVolumesValueVisible : Bool
deriving DecidableEq, Repr

/-- The widget state right after `compose`/`on_mount`. -/
def initialPreprocessingState : PreprocessingState :=
  { dummy_scans := .unset,
    removeVolumesDisplay := "0",
    removeVolumesBorderGreen := false,
    manualLabel := "Remove initial volumes from scans",
    editButtonVisible := true,
    removeVolumesValueVisible := true }

/-- The dismissal payload of `SetInitialVolumesRemovalModal`: OK dismisses
with the entered text, `"0"` when the input is blank. -/
def modalOkPayload (input : String) : Option String :=
  if input = "" then some "0" else some input

/-- The dismissal payload of the modal's Cancel button. -/
def modalCancelPayload : Option String := none

/-- Embedding of `Preprocessing.update_remove_initial_volumes_value`, the
callback receiving the modal's dismissal payload: on a non-`None` payload
it updates the displayed value and its border, and nothing else. -/
def update_remove_initial_volumes_value (s : PreprocessingState)
    (value : Option String) : PreprocessingState :=
  match value with
  | none => s
  | some v =>
    { s with removeVolumesDisplay := v, removeVolumesBorderGreen := true }

/-- Embedding of `Preprocessing._on_via_algorithm_switch_changed`: the
handler of the "detect automatically" switch only swaps the label and the
visibility of the manual controls. -/
def on_via_algorithm_switch_changed (s : PreprocessingState)
    (value : Bool) : PreprocessingState :=
  if value then
    { s with
      manualLabel := "Turn of 'Detect non-steady-state via algorithm' to set manually number of initial volumes to remove",
      editButtonVisible := false,
      removeVolumesValueVisible := false }
  else
    { s with
      manualLabel := "Remove initial volumes from scans",
      editButtonVisible := true,
      removeVolumesValueVisible := true }

/-- The full manual flow: the user confirms the modal with entered text
`input`, and the dismissal payload reaches
`update_remove_initial_volumes_value`. -/
def confirmInitialVolumesModal (s : PreprocessingState) (input : String) :
    PreprocessingState :=
  update_remove_initial_volumes_value s (modalOkPayload input)

/-! ## `FileBrowser` (`src/halfpipe/tui/utils/filebrowser.py`) -/

/-- The observable state of the compact `FileBrowser` control: the text
shown by its label, the label's ad-hoc `value` attribute (absent until
first set), and the reactive `selected_path` (initially `""`). -/
structure FileBrowserState where
  labelText : String
  labelValue : Option String
  selected_path : String
deriving DecidableEq, Repr

/-- The control's state right after `compose`. -/
def initialFileBrowserState (pathTo : String) : FileBrowserState :=
  { labelText := pathTo ++ ":", labelValue := none, selected_path := "" }

/-- Python's `selected_path != ""` on the dismissal payload: `None` or a
string; `None != ""` is `True`. -/
def payloadNeEmptyStr : Option String → Bool
  | none => true
  | some s => !(s == "")

/-- Python's `str()` applied to the dismissal payload (`str(None)` is the
string `"None"`). -/
def pyStr : Option String → String
  | none => "None"
  | some s => s

/-- Result of a `FileBrowser.update_input` call: the new control state and
the `Changed` messages posted by the reactive `selected_path` watcher (the
watcher fires exactly when the reactive value changes). -/
structure FileBrowserResult where
  state : FileBrowserState
  changedMessages : List String
deriving DecidableEq, Repr

/-- Embedding of `FileBrowser.update_input(selected_path)`, the callback
receiving the directory-browser modal's dismissal payload (`None` on
Cancel or escape, the path string on OK). -/
def FileBrowser.update_input (pathTo : String) (st : FileBrowserState)
    (selectedPath : Option String) : FileBrowserResult :=
  if payloadNeEmptyStr selectedPath then
    let sp := pyStr selectedPath
    { state :=
        { labelText := pathTo ++ ": " ++ sp,
          labelValue := some (pathTo ++ ": " ++ sp),
          selected_path := sp },
      changedMessages := if st.selected_path = sp then [] else [sp] }
  else
    { state := st, changedMessages := [] }

/-- The dismissal payload of `FileBrowserScreen._cancel_window` (Cancel
button or escape key): no payload. -/
def fileBrowserCancelPayload : Option String := none

/-! ## `SwitchWithSelect`
(`src/halfpipe/tui/feature_widgets/task_based/taskbased.py`) -/

/-- `SwitchWithSelect.__init__`: the stored options list, `[]` when the
`options` argument is omitted (`None`). -/
def switchWithSelectOptions (options : Option (List (String × String))) :
    List (String × String) :=
  match options with
  | none => []
  | some l => l

/-- Embedding of `SwitchWithSelect.compose`: the dropdown is built from
the `(str(label), value)` pairs (labels are strings already, so `str` is
the identity here) with initial value `self.options[0][1]`; on an empty
options list the subscript raises an `IndexError`. -/
def switchWithSelectCompose (options : List (String × String)) :
    Except String (List (String × String) × String) :=
  match options with
  | [] => .error "IndexError"
  | first :: rest => .ok (first :: rest, first.2)

/-! ## Theorems for the UI claims -/

/-- C10: rendering a `SwitchWithSelect` is only defined for a non-empty
options list — with the default (omitted, hence `[]`) or an explicitly
empty options list, `compose` fails with an `IndexError` because the
dropdown's initial value is `self.options[0][1]`; with at least one option
the dropdown's initial value is the first option's value. -/
theorem switchWithSelect_initial_value :
    switchWithSelectOptions none = [] ∧
    switchWithSelectCompose (switchWithSelectOptions none) =
      .error "IndexError" ∧
    ∀ first rest, switchWithSelectCompose (first :: rest) =
      .ok (first :: rest, first.2) :=
  ⟨rfl, rfl, fun _ _ => rfl⟩

/-- C3 (code evaluation): confirming the initial-volumes-removal modal
with the entered count "5" only updates the displayed value — the
`dummy_scans` entry of `global_settings` is never written (the modal's
vestigial `next` method, which would write it, is dead code), and
selecting the automatic-detection switch only changes the label and the
controls' visibility, leaving `dummy_scans` untouched rather than clearing
it to the auto-detect sentinel. -/
theorem dummy_scans_never_written :
    (confirmInitialVolumesModal initialPreprocessingState "5").dummy_scans
        = .unset ∧
    (confirmInitialVolumesModal initialPreprocessingState "5").dummy_scans
        ≠ .count 5 ∧
    (confirmInitialVolumesModal initialPreprocessingState "5").removeVolumesDisplay
        = "5" ∧
    (confirmInitialVolumesModal initialPreprocessingState "").removeVolumesDisplay
        = "0" ∧
    (on_via_algorithm_switch_changed initialPreprocessingState true).dummy_scans
        = .unset ∧
    (on_via_algorithm_switch_changed initialPreprocessingState true).dummy_scans
        ≠ .auto := by
  refine ⟨rfl, ?_, rfl, rfl, rfl, ?_⟩ <;> decide

/-- C9 (code evaluation): dismissing the directory-browser modal with no
payload (`None`, from Cancel or escape) passes Python's
`selected_path != ""` guard, so `update_input` sets the label to
`"…: None"`, sets the reactive `selected_path` to the string `"None"`, and
the watcher posts a `Changed("None")` notification — the control is *not*
left unchanged. -/
theorem filebrowser_cancel_mutates_state :
    (FileBrowser.update_input "Working directory"
        (initialFileBrowserState "Working directory")
        fileBrowserCancelPayload).state.selected_path = "None" ∧
    (FileBrowser.update_input "Working directory"
        (initialFileBrowserState "Working directory")
        fileBrowserCancelPayload).state.labelText
      = "Working directory: None" ∧
    (FileBrowser.update_input "Working directory"
        (initialFileBrowserState "Working directory")
        fileBrowserCancelPayload).changedMessages = ["None"] ∧
    (FileBrowser.update_input "Working directory"
        (initialFileBrowserState "Working directory")
        fileBrowserCancelPayload).state
      ≠ initialFileBrowserState "Working directory" := by
  refine ⟨rfl, rfl, rfl, ?_⟩
  decide

/-- C4 (code evaluation): `CheckMetadataStep.setup` computes
`order = np.argsort(counts)` but never applies it — with observed values
`["a", "b", "b"]` the rows are displayed in ascending *value* order and
the pre-filled suggestion is `"a"`, the lexicographically first unique
value, even though the most frequent observed value is `"b"`; with values
`["a", "a", "b"]` the displayed counts `[2, 1]` are not in ascending
order. -/
theorem checkMetadata_suggestion_not_most_frequent :
    checkMetadataSetup id false [some "a", some "b", some "b"] =
      .ok { isMissing := false, suggestion := some "a",
            rows := [("a", 1), ("b", 2)], ellipsis := false,
            hasInputView := true } ∧
    (∀ c ∈ npUnique ["a", "b", "b"], c.2 ≤ 2) ∧
    ("b", 2) ∈ npUnique ["a", "b", "b"] ∧
    some "b" ≠ some "a" ∧
    checkMetadataSetup id false [some "a", some "a", some "b"] =
      .ok { isMissing := false, suggestion := some "a",
            rows := [("a", 2), ("b", 1)], ellipsis := false,
            hasInputView := true } ∧
    ¬ List.Sorted (· ≤ ·) ([("a", 2), ("b", 1)].map Prod.snd) := by
  refine ⟨rfl, ?_, ?_, ?_, rfl, ?_⟩ <;> decide

/-- C7 (counterexample): when every resolved file's value for the key is
absent, the first run of `CheckMetadataStep` presents no interaction but
advances to a `SetMetadataStep` (the `choice == "Yes"` branch of `next` is
not taken), not to its continuation step. -/
theorem checkMetadata_missing_counterexample :
    checkMetadataSetup id false [none, none] =
      .ok ⟨true, none, [], false, false⟩ ∧
    checkMetadataFirstRun false ⟨true, none, [], false, false⟩ none =
      .setMetadata none ∧
    NextStep.setMetadata none ≠ NextStep.continuation := by
  refine ⟨rfl, rfl, ?_⟩
  decide

/-- C7 (amended): if every resolved file's value for the metadata key is
absent, `CheckMetadataStep` marks itself missing, presents no input view,
and on its first run — regardless of any user choice — advances to a
`SetMetadataStep` with an empty pre-filled suggestion, without consulting
the user. -/
theorem checkMetadata_missing_first_run (humanize : String → String)
    (vals : List (Option String)) (userChoice : Option String)
    (h : vals.all Option.isNone = true) :
    checkMetadataSetup humanize false vals =
      .ok ⟨true, none, [], false, false⟩ ∧
    checkMetadataFirstRun false ⟨true, none, [], false, false⟩ userChoice =
      .setMetadata none := by
  constructor
  · simp [checkMetadataSetup, h]
  · rfl

/-- Witness for `checkMetadata_missing_first_run` at a concrete input:
one file with an absent value and a user who would have answered "Yes". -/
theorem checkMetadata_missing_first_run_witness :
    ([none, none] : List (Option String)).all Option.isNone = true ∧
    (checkMetadataSetup id false [none, none] =
        .ok ⟨true, none, [], false, false⟩ ∧
      checkMetadataFirstRun false ⟨true, none, [], false, false⟩
        (some "Yes") = .setMetadata none) :=
  ⟨by decide, checkMetadata_missing_first_run id [none, none] (some "Yes")
    (by decide)⟩

/-! ## Lemmas about `collect_events` -/

theorem processKeep_path {db : Database} {c : String} {cf : CondFile}
    (h : processCandidate.processKeep db c = .ok (some cf)) :
    cf.path = c := by
  unfold processCandidate.processKeep at h
  split at h
  · split at h
    · simp only [Except.ok.injEq, Option.some.injEq] at h
      subst h
      rfl
    · simp at h
  · simp only [Except.ok.injEq, Option.some.injEq] at h
    subst h
    rfl

theorem processCandidate_path {db : Database} {s : Option String}
    {c : String} {cf : CondFile}
    (h : processCandidate db s c = .ok (some cf)) : cf.path = c := by
  unfold processCandidate at h
  split at h
  · split at h
    · simp at h
    · exact processKeep_path h
  · exact processKeep_path h

theorem processCandidate_subject {db : Database} {s : Option String}
    {c : String} {cf : CondFile}
    (h : processCandidate db s c = .ok (some cf))
    {subj : String} (hs : db.tagval c "sub" = some subj) : s = some subj := by
  unfold processCandidate at h
  split at h
  · next s' hs' =>
    rw [hs, Option.some.injEq] at hs'
    subst hs'
    split at h
    · simp at h
    · next hne =>
      have := not_not.mp (by simpa using hne)
      exact this.symm
  · next hs' => rw [hs] at hs'; simp at hs'

theorem processKeep_txt {db : Database} {c : String} {cf : CondFile}
    (h : processCandidate.processKeep db c = .ok (some cf)) :
    (db.tagval c "extension" = some ".txt" →
      ∃ cond, cf = .withCondition c cond ∧
        db.tagval c "condition" = some cond) ∧
    (db.tagval c "extension" ≠ some ".txt" → cf = .plain c) := by
  unfold processCandidate.processKeep at h
  split at h
  · next hext =>
    split at h
    · next cond hcond =>
      refine ⟨fun _ => ⟨cond, ?_, hcond⟩, fun hne => absurd hext hne⟩
      simpa using h.symm
    · simp at h
  · next hext =>
    exact ⟨fun hx => absurd hx hext, fun _ => by simpa using h.symm⟩

theorem processCandidate_txt {db : Database} {s : Option String}
    {c : String} {cf : CondFile}
    (h : processCandidate db s c = .ok (some cf)) :
    (db.tagval c "extension" = some ".txt" →
      ∃ cond, cf = .withCondition c cond ∧
        db.tagval c "condition" = some cond) ∧
    (db.tagval c "extension" ≠ some ".txt" → cf = .plain c) := by
  unfold processCandidate at h
  split at h
  · split at h
    · simp at h
    · exact processKeep_txt h
  · exact processKeep_txt h

/-- Every entry of a successful `collectEventsLoop` run arises from a
kept candidate of the input list. -/
theorem collectEventsLoop_mem {db : Database} {s : Option String} :
    ∀ {l : List String} {res : List CondFile},
      collectEventsLoop db s l = .ok res →
      ∀ cf ∈ res, ∃ c ∈ l, processCandidate db s c = .ok (some cf)
  | [], res, h => by
    simp only [collectEventsLoop] at h
    cases h
    intro cf hcf
    simp at hcf
  | c :: rest, res, h => by
    simp only [collectEventsLoop, bind, Except.bind] at h
    cases hp : processCandidate db s c with
    | error e => rw [hp] at h; simp at h
    | ok r =>
      rw [hp] at h
      cases ht : collectEventsLoop db s rest with
      | error e => rw [ht] at h; simp at h
      | ok tail =>
        rw [ht] at h
        cases r with
        | none =>
          simp only [] at h
          cases h
          intro cf hcf
          obtain ⟨d, hd, hpd⟩ := collectEventsLoop_mem ht cf hcf
          exact ⟨d, List.mem_cons_of_mem _ hd, hpd⟩
        | some cf0 =>
          simp only [] at h
          cases h
          intro cf hcf
          rcases List.mem_cons.mp hcf with h1 | h1
          · subst h1; exact ⟨c, List.mem_cons_self _ _, hp⟩
          · obtain ⟨d, hd, hpd⟩ := collectEventsLoop_mem ht cf h1
            exact ⟨d, List.mem_cons_of_mem _ hd, hpd⟩

/-- The candidate paths of a successful `collectEventsLoop` run form a
sublist of the input list. -/
theorem collectEventsLoop_sublist {db : Database} {s : Option String} :
    ∀ {l : List String} {res : List CondFile},
      collectEventsLoop db s l = .ok res →
      List.Sublist (res.map CondFile.path) l
  | [], res, h => by
    simp only [collectEventsLoop] at h
    cases h
    simp
  | c :: rest, res, h => by
    simp only [collectEventsLoop, bind, Except.bind] at h
    cases hp : processCandidate db s c with
    | error e => rw [hp] at h; simp at h
    | ok r =>
      rw [hp] at h
      cases ht : collectEventsLoop db s rest with
      | error e => rw [ht] at h; simp at h
      | ok tail =>
        rw [ht] at h
        cases r with
        | none =>
          cases h
          exact (collectEventsLoop_sublist ht).cons c
        | some cf0 =>
          cases h
          rw [List.map_cons, processCandidate_path hp]
          exact (collectEventsLoop_sublist ht).cons₂ c

/-- When every candidate is skipped, the loop returns the empty list. -/
theorem collectEventsLoop_none {db : Database} {s : Option String} :
    ∀ {l : List String}, (∀ c ∈ l, processCandidate db s c = .ok none) →
      collectEventsLoop db s l = .ok []
  | [], _ => rfl
  | c :: rest, h => by
    simp only [collectEventsLoop, bind, Except.bind]
    rw [h c (List.mem_cons_self _ _),
      collectEventsLoop_none (fun d hd => h d (List.mem_cons_of_mem _ hd))]

/-- A candidate declaring a subject different from the source file's is
skipped. -/
theorem processCandidate_mismatch {db : Database} {s : Option String}
    {c : String} {subj : String}
    (hs : db.tagval c "sub" = some subj) (hne : s ≠ some subj) :
    processCandidate db s c = .ok none := by
  have hcond : some subj ≠ s := fun hx => hne hx.symm
  unfold processCandidate
  rw [hs]
  simp [hcond]

/-- C6: for every database and source file, a successful `collect_events`
never returns a candidate that declares a subject tag different from the
source file's subject; the returned candidate paths are deduplicated and
sorted; `".txt"` candidates are paired with their `condition` tag and
other candidates returned bare; a returned tuple is non-empty, and when
every candidate declares a mismatching subject the result is no-value. -/
theorem collect_events_subject_scope (db : Database) (src : String)
    (r : Option (List CondFile)) (h : collect_events db src = .ok r) :
    (∀ files, r = some files →
      files ≠ [] ∧
      (∀ cf ∈ files, ∀ subj, db.tagval cf.path "sub" = some subj →
        db.tagval src "sub" = some subj) ∧
      (files.map CondFile.path).Sorted (fun a b => pathLe a b = true) ∧
      (files.map CondFile.path).Nodup ∧
      (∀ cf ∈ files,
        (db.tagval cf.path "extension" = some ".txt" →
          ∃ cond, cf = .withCondition cf.path cond ∧
            db.tagval cf.path "condition" = some cond) ∧
        (db.tagval cf.path "extension" ≠ some ".txt" →
          cf = .plain cf.path))) ∧
    ((∀ c ∈ (eventAssociations db src).getD [], ∃ subj,
        db.tagval c "sub" = some subj ∧
        db.tagval src "sub" ≠ some subj) →
      r = none) := by
  unfold collect_events at h
  split at h
  · next heq =>
    obtain rfl : none = r := by injection h
    exact ⟨fun files hf => Option.noConfusion hf, fun _ => rfl⟩
  · next cands heq =>
    rw [heq]
    simp only [Option.getD_some]
    by_cases hlen : cands.length = 0
    · rw [if_pos hlen] at h
      obtain rfl : none = r := by injection h
      exact ⟨fun files hf => Option.noConfusion hf, fun _ => rfl⟩
    · rw [if_neg hlen] at h
      split at h
      · simp at h
      · next files0 hloop =>
        constructor
        · intro files hf
          subst hf
          by_cases hl0 : files0.length > 0
          · rw [if_pos hl0] at h
            injection h with h
            injection h with h
            subst h
            have hsub := collectEventsLoop_sublist hloop
            have hmem := collectEventsLoop_mem hloop
            refine ⟨?_, ?_, ?_, ?_, ?_⟩
            · intro hnil
              rw [hnil] at hl0
              simp at hl0
            · intro cf hcf subj hs
              obtain ⟨c, _, hpc⟩ := hmem cf hcf
              have hpath := processCandidate_path hpc
              rw [hpath] at hs
              exact processCandidate_subject hpc hs
            · exact (sortPaths_sorted cands.dedup).sublist hsub
            · exact ((sortPaths_perm cands.dedup).nodup_iff.mpr
                (List.nodup_dedup cands)).sublist hsub
            · intro cf hcf
              obtain ⟨c, _, hpc⟩ := hmem cf hcf
              have hpath := processCandidate_path hpc
              rw [hpath]
              exact processCandidate_txt hpc
          · rw [if_neg hl0] at h
            injection h with h
            exact Option.noConfusion h
        · intro hall
          have hskip : ∀ c ∈ sortPaths cands.dedup,
              processCandidate db (db.tagval src "sub") c = .ok none := by
            intro c hc
            have hc' : c ∈ cands := List.mem_dedup.mp (mem_sortPaths.mp hc)
            obtain ⟨subj, hs, hne⟩ := hall c hc'
            exact processCandidate_mismatch hs hne
          have : files0 = [] := by
            have h0 := collectEventsLoop_none hskip
            rw [hloop] at h0
            simpa using h0.symm
          subst this
          simp only [List.length_nil, gt_iff_lt, lt_irrefl, if_false] at h
          injection h with h
          exact h.symm

/-- A concrete database for exercising `collect_events`: one BOLD run of
subject "01" with two associated event files, `"ev1"` of the same subject
and `"ev2"` of subject "02" (same task, listed with a duplicate). -/
def c6db : Database where
  tagval f t :=
    if f = "bold1" then
      (if t = "sub" then some "01" else
        if t = "task" then some "t" else none)
    else if f = "ev1" then
      (if t = "sub" then some "01" else
        if t = "extension" then some ".tsv" else none)
    else if f = "ev2" then
      (if t = "sub" then some "02" else none)
    else none
  associations f q :=
    if f = "bold1" ∧ q.contains ("suffix", some "events") then
      some ["ev2", "ev1", "ev1"]
    else none
  metadata _ _ := none

/-- Witness for `collect_events_subject_scope`: on `c6db` the run's
events resolve to just `"ev1"`; the event file `"ev2"` tagged with the
other subject is not returned although its task matches. -/
theorem collect_events_subject_scope_witness :
    collect_events c6db "bold1" = Except.ok (some [CondFile.plain "ev1"]) ∧
    (∀ cf ∈ [CondFile.plain "ev1"], ∀ subj,
      c6db.tagval cf.path "sub" = some subj →
      c6db.tagval "bold1" "sub" = some subj) :=
  ⟨rfl, ((collect_events_subject_scope c6db "bold1" _ rfl).1 _ rfl).2.1⟩

/-! ## Lemmas about `collect_fieldmaps` -/

theorem magnitude_map_phase {s : String}
    (h : s ∈ (["phase1", "phase2", "phasediff"] : List String)) :
    magnitude_map s = some ["magnitude1", "magnitude2"] := by
  simp only [List.mem_cons, List.mem_singleton, List.not_mem_nil,
    or_false] at h
  rcases h with rfl | rfl | rfl <;> rfl

theorem magnitude_map_cases {s : String} {mags : List String}
    (h : magnitude_map s = some mags) :
    (s ∈ (["phase1", "phase2", "phasediff"] : List String) ∧
      mags = ["magnitude1", "magnitude2"]) ∨
    (s = "fieldmap" ∧ mags = ["magnitude"]) := by
  unfold magnitude_map at h
  split at h <;> simp_all

theorem isIncompleteB_eq_true_iff {db : Database} {cands : List String}
    {c : String} :
    isIncompleteB db cands c = true ↔
    ∃ mags, magnitude_map (suffixOf db c) = some mags ∧
      ¬ ∃ d ∈ cands, suffixOf db d ∈ mags := by
  unfold isIncompleteB
  split
  · next hm => simp [hm]
  · next mags hm =>
    simp only [hm, Bool.not_eq_true', List.any_eq_false, decide_eq_true_eq,
      Option.some.injEq]
    constructor
    · intro hall
      refine ⟨mags, rfl, ?_⟩
      rintro ⟨d, hd, hmem⟩
      exact hall d hd hmem
    · rintro ⟨mags', hmags', hne⟩ d hd hmem
      subst hmags'
      exact hne ⟨d, hd, hmem⟩

theorem mem_magnitudePass {db : Database} {cands : List String}
    {c : String} :
    c ∈ magnitudePass db cands ↔
      c ∈ cands ∧ isIncompleteB db cands c = false := by
  unfold magnitudePass
  rw [List.mem_filter]
  simp

theorem pepolarResult_subset (env : FmapEnv) (boldFilePath : String)
    (cs : List String) (epi_fmaps : List (String × String)) :
    ∀ x ∈ pepolarResult env boldFilePath cs epi_fmaps,
      x ∈ magnitudePass env.db cs.dedup := by
  intro x hx
  unfold pepolarResult at hx
  split at hx
  · exact hx
  · split at hx
    · exact hx
    · exact (List.mem_filter.mp hx).1

/-- Every element of a successful `collect_fieldmaps` result survived the
magnitude pass of the deduplicated candidate set. -/
theorem collect_fieldmaps_ok_subset {env : FmapEnv} {boldFilePath : String}
    {cs l : List String}
    (hassoc : fmapAssociations env boldFilePath = some cs)
    (hok : collect_fieldmaps env boldFilePath = .ok l) :
    ∀ x ∈ l, x ∈ magnitudePass env.db cs.dedup := by
  unfold collect_fieldmaps at hok
  split at hok
  · next heq => rw [hassoc] at heq; cases heq
  · next cs' heq =>
    rw [hassoc, Option.some.injEq] at heq
    subst heq
    unfold collectFieldmapsBody at hok
    split at hok
    · simp at hok
    · split at hok
      · simp at hok
      · next epi_fmaps hmap =>
        injection hok with hok
        subst hok
        intro x hx
        exact pepolarResult_subset _ _ _ _ x (mem_sortPaths.mp hx)

/-- C5: for every candidate set reaching a successful `collect_fieldmaps`
pass, a candidate whose suffix is `phase1`, `phase2` or `phasediff` is
excluded from the returned list when no candidate has suffix `magnitude1`
or `magnitude2`, a candidate with suffix `fieldmap` is excluded when no
candidate has suffix `magnitude`, and every other candidate survives the
magnitude pass. -/
theorem collect_fieldmaps_magnitude_filter (env : FmapEnv)
    (boldFilePath : String) (cs l : List String)
    (hassoc : fmapAssociations env boldFilePath = some cs)
    (hok : collect_fieldmaps env boldFilePath = .ok l) :
    (∀ c ∈ cs,
      suffixOf env.db c ∈ (["phase1", "phase2", "phasediff"] : List String) →
      (¬ ∃ d ∈ cs, suffixOf env.db d ∈
        (["magnitude1", "magnitude2"] : List String)) →
      c ∉ l) ∧
    (∀ c ∈ cs, suffixOf env.db c = "fieldmap" →
      (¬ ∃ d ∈ cs, suffixOf env.db d = "magnitude") →
      c ∉ l) ∧
    (∀ c ∈ cs,
      ¬ (suffixOf env.db c ∈ (["phase1", "phase2", "phasediff"] : List String) ∧
        ¬ ∃ d ∈ cs, suffixOf env.db d ∈
          (["magnitude1", "magnitude2"] : List String)) →
      ¬ (suffixOf env.db c = "fieldmap" ∧
        ¬ ∃ d ∈ cs, suffixOf env.db d = "magnitude") →
      c ∈ magnitudePass env.db cs.dedup) := by
  have hsub := collect_fieldmaps_ok_subset hassoc hok
  refine ⟨?_, ?_, ?_⟩
  · intro c _ hphase hnomag hcl
    have hmem := mem_magnitudePass.mp (hsub c hcl)
    have : isIncompleteB env.db cs.dedup c = true := by
      rw [isIncompleteB_eq_true_iff]
      refine ⟨["magnitude1", "magnitude2"], ?_, ?_⟩
      · exact magnitude_map_phase hphase
      · rintro ⟨d, hd, hdm⟩
        exact hnomag ⟨d, List.mem_dedup.mp hd, hdm⟩
    rw [this] at hmem
    exact Bool.noConfusion hmem.2
  · intro c _ hfm hnomag hcl
    have hmem := mem_magnitudePass.mp (hsub c hcl)
    have : isIncompleteB env.db cs.dedup c = true := by
      rw [isIncompleteB_eq_true_iff]
      refine ⟨["magnitude"], ?_, ?_⟩
      · rw [hfm]; rfl
      · rintro ⟨d, hd, hdm⟩
        simp only [List.mem_singleton] at hdm
        exact hnomag ⟨d, List.mem_dedup.mp hd, hdm⟩
    rw [this] at hmem
    exact Bool.noConfusion hmem.2
  · intro c hc hnph hnfm
    rw [mem_magnitudePass]
    refine ⟨List.mem_dedup.mpr hc, ?_⟩
    rw [Bool.eq_false_iff]
    intro htrue
    obtain ⟨mags, hmm, hno⟩ := isIncompleteB_eq_true_iff.mp htrue
    rcases magnitude_map_cases hmm with ⟨hph, rfl⟩ | ⟨hfm, rfl⟩
    · refine hnph ⟨hph, ?_⟩
      rintro ⟨d, hd, hdm⟩
      exact hno ⟨d, List.mem_dedup.mpr hd, hdm⟩
    · refine hnfm ⟨hfm, ?_⟩
      rintro ⟨d, hd, hdm⟩
      exact hno ⟨d, List.mem_dedup.mpr hd, by simpa using hdm⟩

/-- A concrete field-map environment matching the spec's completeness
example: one BOLD run whose only field-map candidate is a `phasediff`
file, with no magnitude images. -/
def c5env : FmapEnv where
  db :=
    { tagval := fun f t =>
        if f = "pd" then (if t = "suffix" then some "phasediff" else none)
        else if f = "boldA" ∧ t = "sub" then some "01"
        else none,
      associations := fun f q =>
        if f = "boldA" ∧ q.contains ("datatype", some "fmap") then
          some ["pd"]
        else none,
      metadata := fun _ _ => none }
  canonicalize := fun _ _ => .error "ValueError"
  checkPes := fun _ _ => .ok ()

/-- Witness for `collect_fieldmaps_magnitude_filter`: the `phasediff`
candidate without magnitude images is excluded, yielding the empty
list. -/
theorem collect_fieldmaps_magnitude_filter_witness :
    fmapAssociations c5env "boldA" = some ["pd"] ∧
    collect_fieldmaps c5env "boldA" = Except.ok [] ∧
    "pd" ∉ ([] : List String) :=
  ⟨rfl, rfl,
    (collect_fieldmaps_magnitude_filter c5env "boldA" ["pd"] [] rfl rfl).1
      "pd" (by decide) (by decide) (by decide)⟩

/-- A concrete environment in which `collect_fieldmaps` raises: the single
field-map candidate `"f1"` has no `suffix` tag, so the
`assert isinstance(suffix, str)` fails. -/
def c8env : FmapEnv where
  db :=
    { tagval := fun f t =>
        if f = "boldA" ∧ t = "sub" then some "01" else none,
      associations := fun f q =>
        if f = "boldA" ∧ q.contains ("datatype", some "fmap") then
          some ["f1"]
        else none,
      metadata := fun _ _ => none }
  canonicalize := fun _ _ => .error "ValueError"
  checkPes := fun _ _ => .ok ()

/-- C8 (counterexample): `collect_fieldmaps` does *not* always return its
sorted result without raising — on a database whose field-map candidate
lacks a `suffix` tag, the internal suffix assertion escapes the function
and no list is returned. -/
theorem collect_fieldmaps_raises_counterexample :
    collect_fieldmaps c8env "boldA" = Except.error "AssertionError" ∧
    ¬ ∃ l, collect_fieldmaps c8env "boldA" = Except.ok l := by
  refine ⟨rfl, ?_⟩
  rintro ⟨l, hl⟩
  rw [show collect_fieldmaps c8env "boldA"
      = Except.error "AssertionError" from rfl] at hl
  exact Except.noConfusion hl

theorem epiPairs_ok_of (env : FmapEnv) :
    ∀ {l : List String}, (∀ c ∈ l, ∃ d, collect_pe_dir env c = .ok d) →
      ∃ ps, epiPairs env l = .ok ps
  | [], _ => ⟨[], rfl⟩
  | c :: rest, h => by
    obtain ⟨d, hd⟩ := h c (List.mem_cons_self _ _)
    obtain ⟨ps, hps⟩ :=
      epiPairs_ok_of env (fun z hz => h z (List.mem_cons_of_mem _ hz))
    refine ⟨(c, d) :: ps, ?_⟩
    unfold epiPairs
    rw [hd, hps]

/-- C8 (amended): `collect_fieldmaps` returns its deterministically sorted
result without raising, provided every field-map candidate carries a
string `suffix` tag and the phase-encoding canonicalization of every epi
candidate succeeds; a `ValueError` from the pairing-compatibility check or
from canonicalizing the BOLD file's own direction is caught internally and
never escapes. -/
theorem collect_fieldmaps_no_raise (env : FmapEnv) (boldFilePath : String)
    (h1 : ∀ c ∈ (fmapAssociations env boldFilePath).getD [],
      (env.db.tagval c "suffix").isSome)
    (h2 : ∀ c ∈ (fmapAssociations env boldFilePath).getD [],
      suffixOf env.db c = "epi" → ∃ d, collect_pe_dir env c = .ok d) :
    ∃ l, collect_fieldmaps env boldFilePath = .ok l ∧
      l.Sorted (fun a b => pathLe a b = true) := by
  unfold collect_fieldmaps
  split
  · exact ⟨[], rfl, List.sorted_nil⟩
  · next cs heq =>
    rw [heq] at h1 h2
    have h1' : ∀ c ∈ cs, (env.db.tagval c "suffix").isSome := h1
    have h2' : ∀ c ∈ cs, suffixOf env.db c = "epi" →
        ∃ d, collect_pe_dir env c = .ok d := h2
    unfold collectFieldmapsBody
    have hany : cs.dedup.any
        (fun c => (env.db.tagval c "suffix").isNone) = false := by
      rw [List.any_eq_false]
      intro c hc
      have hs := h1' c (List.mem_dedup.mp hc)
      cases hopt : env.db.tagval c "suffix" with
      | none => rw [hopt] at hs; exact Bool.noConfusion hs
      | some s => simp [hopt]
    have hepis : ∀ c ∈ epiCandidates env cs,
        ∃ d, collect_pe_dir env c = .ok d := by
      intro c hc
      unfold epiCandidates at hc
      rw [List.mem_filter] at hc
      obtain ⟨hc1, hc2⟩ := hc
      have hcs : c ∈ cs :=
        List.mem_dedup.mp (mem_magnitudePass.mp hc1).1
      exact h2' c hcs (by simpa using hc2)
    obtain ⟨ps, hps⟩ := epiPairs_ok_of env hepis
    rw [hany, hps]
    simp only [Bool.false_eq_true, if_false]
    exact ⟨_, rfl, sortPaths_sorted _⟩

/-- A concrete environment exercising the amended C8 theorem: one epi
field-map candidate whose phase-encoding direction canonicalizes
successfully. -/
def c8okenv : FmapEnv where
  db :=
    { tagval := fun f t =>
        if f = "boldA" ∧ t = "sub" then some "01"
        else if f = "ep1" ∧ t = "suffix" then some "epi"
        else none,
      associations := fun f q =>
        if f = "boldA" ∧ q.contains ("datatype", some "fmap") then
          some ["ep1"]
        else none,
      metadata := fun _ t =>
        if t = "phase_encoding_direction" then some "j" else none }
  canonicalize := fun m _ =>
    match m with
    | some d => .ok d
    | none => .error "ValueError"
  checkPes := fun _ _ => .ok ()

/-- Witness for `collect_fieldmaps_no_raise` at a concrete environment
with one well-formed epi candidate. -/
theorem collect_fieldmaps_no_raise_witness :
    (∀ c ∈ (fmapAssociations c8okenv "boldA").getD [],
      (c8okenv.db.tagval c "suffix").isSome) ∧
    (∀ c ∈ (fmapAssociations c8okenv "boldA").getD [],
      suffixOf c8okenv.db c = "epi" →
      ∃ d, collect_pe_dir c8okenv c = .ok d) ∧
    ∃ l, collect_fieldmaps c8okenv "boldA" = .ok l ∧
      l.Sorted (fun a b => pathLe a b = true) :=
  ⟨by decide,
    fun c hc _ => by
      have hc' : c ∈ ["ep1"] := hc
      simp only [List.mem_singleton] at hc'
      subst hc'
      exact ⟨"j", rfl⟩,
    collect_fieldmaps_no_raise c8okenv "boldA" (by decide)
      (fun c hc _ => by
        have hc' : c ∈ ["ep1"] := hc
        simp only [List.mem_singleton] at hc'
        subst hc'
        exact ⟨"j", rfl⟩)⟩

/-! ## Lemmas about `collect_bold_files` -/

theorem lastOfList_mem : ∀ {l : List String}, l ≠ [] → lastOfList l ∈ l
  | [], h => absurd rfl h
  | [x], _ => by simp [lastOfList]
  | _ :: x :: xs, _ => by
    rw [lastOfList]
    exact List.mem_cons_of_mem _ (lastOfList_mem (by simp))

theorem lastOfList_ub {r : String → String → Prop} [IsRefl String r] :
    ∀ {l : List String}, l.Sorted r → ∀ q ∈ l, r q (lastOfList l)
  | [], _, q, hq => by simp at hq
  | [x], _, q, hq => by
    simp only [List.mem_singleton] at hq
    subst hq
    exact refl_of r q
  | y :: x :: xs, hs, q, hq => by
    rw [lastOfList]
    rcases List.mem_cons.mp hq with rfl | hq'
    · have hl := List.rel_of_sorted_cons hs (lastOfList (x :: xs))
        (lastOfList_mem (by simp))
      exact hl
    · exact lastOfList_ub (List.sorted_cons.mp hs).2 q hq'

theorem sortedLast_mem {l : List String} (h : l ≠ []) : sortedLast l ∈ l := by
  unfold sortedLast
  have hne : sortPaths l ≠ [] := by
    intro hx
    have hperm := sortPaths_perm l
    rw [hx] at hperm
    exact h hperm.symm.eq_nil
  exact mem_sortPaths.mp (lastOfList_mem hne)

theorem sortedLast_ub {l : List String} :
    ∀ q ∈ l, pathLe q (sortedLast l) = true := by
  intro q hq
  unfold sortedLast
  exact lastOfList_ub (sortPaths_sorted l) q (mem_sortPaths.mpr hq)

theorem le_foldl_max (a : Nat) :
    ∀ (l : List Nat), a ≤ l.foldl max a
  | [] => le_refl a
  | x :: xs => le_trans (Nat.le_max_left a x) (le_foldl_max (max a x) xs)

theorem foldl_max_mem (a : Nat) :
    ∀ (l : List Nat), l.foldl max a ∈ l ∨ l.foldl max a = a
  | [] => .inr rfl
  | x :: xs => by
    rw [List.foldl_cons]
    rcases foldl_max_mem (max a x) xs with h | h
    · exact .inl (List.mem_cons_of_mem _ h)
    · rw [h]
      rcases Nat.le_total a x with hax | hxa
      · rw [Nat.max_eq_right hax]
        exact .inl (List.mem_cons_self _ _)
      · rw [Nat.max_eq_left hxa]
        exact .inr rfl

theorem foldl_max_ub (a : Nat) :
    ∀ (l : List Nat), ∀ x ∈ l, x ≤ l.foldl max a
  | _ :: xs, y, hy => by
    rw [List.foldl_cons]
    rcases List.mem_cons.mp hy with rfl | hy'
    · exact le_trans (Nat.le_max_right a y) (le_foldl_max _ xs)
    · exact foldl_max_ub _ xs y hy'

theorem mem_tiedAtMax {env : BoldEnv} {members : List String} {p : String} :
    p ∈ tiedAtMax env members ↔
      p ∈ members ∧ env.nvol p = maxNvol env members := by
  unfold tiedAtMax
  rw [List.mem_filter]
  simp

theorem maxNvol_mem {env : BoldEnv} {members : List String}
    (h : members ≠ []) :
    maxNvol env members ∈ members.map env.nvol := by
  unfold maxNvol
  rcases foldl_max_mem 0 (members.map env.nvol) with hm | hm
  · exact hm
  · rw [hm]
    cases members with
    | nil => exact absurd rfl h
    | cons x xs =>
      have hub := foldl_max_ub 0 ((x :: xs).map env.nvol) (env.nvol x)
        (by simp)
      rw [hm] at hub
      have hz : env.nvol x = 0 := Nat.le_zero.mp hub
      rw [← hz]
      simp

theorem tiedAtMax_ne_nil {env : BoldEnv} {members : List String}
    (h : members ≠ []) : tiedAtMax env members ≠ [] := by
  obtain ⟨p, hp, hnv⟩ := List.mem_map.mp (@maxNvol_mem env members h)
  intro hnil
  have hmem : p ∈ tiedAtMax env members := mem_tiedAtMax.mpr ⟨hp, hnv⟩
  rw [hnil] at hmem
  simp at hmem

theorem selectGroup_eq_sortedLast {env : BoldEnv} {members : List String}
    (h : tiedAtMax env members ≠ []) :
    selectGroup env members = sortedLast (tiedAtMax env members) := by
  unfold selectGroup
  show (if 1 < (tiedAtMax env members).length then
      sortedLast (tiedAtMax env members)
    else (tiedAtMax env members).headD "") = _
  split
  · rfl
  · next hle =>
    have hlen : (tiedAtMax env members).length = 1 := by
      have h0 : 0 < (tiedAtMax env members).length :=
        List.length_pos.mpr h
      omega
    obtain ⟨x, hx⟩ := List.length_eq_one.mp hlen
    rw [hx]
    rfl

theorem selectGroup_mem_tiedAtMax {env : BoldEnv} {members : List String}
    (h : tiedAtMax env members ≠ []) :
    selectGroup env members ∈ tiedAtMax env members := by
  rw [selectGroup_eq_sortedLast h]
  exact sortedLast_mem h

theorem mem_groupMembers {env : BoldEnv} {keys : List String} {bp p : String} :
    p ∈ groupMembers env keys bp ↔
      p ∈ keys ∧ env.bidsPath p = some bp := by
  unfold groupMembers
  rw [List.mem_filter]
  simp

theorem mem_boldGroups_eq {env : BoldEnv} {keys : List String}
    {bp : String} {members : List String}
    (h : (bp, members) ∈ boldGroups env keys) :
    members = groupMembers env keys bp := by
  unfold boldGroups at h
  obtain ⟨bp', _, heq⟩ := List.mem_map.mp h
  rw [Prod.mk.injEq] at heq
  rw [← heq.2, ← heq.1]

theorem group_mem_boldGroups {env : BoldEnv} {keys : List String}
    {bp p : String} (hp : p ∈ keys) (hbp : env.bidsPath p = some bp) :
    (bp, groupMembers env keys bp) ∈ boldGroups env keys := by
  unfold boldGroups
  refine List.mem_map.mpr ⟨bp, ?_, rfl⟩
  rw [List.mem_dedup, List.mem_filterMap]
  exact ⟨p, hp, hbp⟩

theorem mem_resolveGroup_keys {env : BoldEnv} {members : List String}
    {d : List (String × List String)} {p : String} :
    p ∈ (resolveGroup env members d).map Prod.fst ↔
      p ∈ d.map Prod.fst ∧
        (members.length = 1 ∨ p ∉ members ∨ p = selectGroup env members) := by
  unfold resolveGroup
  split
  · next h1 => simp [h1]
  · next h1 =>
    constructor
    · intro hmem
      obtain ⟨e, he, hep⟩ := List.mem_map.mp hmem
      rw [List.mem_filter] at he
      obtain ⟨hed, hq⟩ := he
      rw [decide_eq_true_iff] at hq
      subst hep
      exact ⟨List.mem_map_of_mem _ hed, .inr hq⟩
    · rintro ⟨hmem, hcond⟩
      obtain ⟨e, he, hep⟩ := List.mem_map.mp hmem
      refine List.mem_map.mpr ⟨e, List.mem_filter.mpr ⟨he, ?_⟩, hep⟩
      rw [decide_eq_true_iff, hep]
      rcases hcond with hc | hc
      · exact absurd hc h1
      · exact hc

theorem foldl_resolve_keys (env : BoldEnv) :
    ∀ (gs : List (String × List String)) (d : List (String × List String))
      (p : String),
      p ∈ (gs.foldl (fun d g => resolveGroup env g.2 d) d).map Prod.fst ↔
        p ∈ d.map Prod.fst ∧ ∀ gg ∈ gs,
          (gg.2.length = 1 ∨ p ∉ gg.2 ∨ p = selectGroup env gg.2)
  | [], d, p => by simp
  | g0 :: gs, d, p => by
    rw [List.foldl_cons, foldl_resolve_keys env gs _ p, mem_resolveGroup_keys]
    constructor
    · rintro ⟨⟨hd, hcond⟩, hall⟩
      refine ⟨hd, fun gg hgg => ?_⟩
      rcases List.mem_cons.mp hgg with rfl | hmem
      · exact hcond
      · exact hall gg hmem
    · rintro ⟨hd, hall⟩
      exact ⟨⟨hd, hall g0 (List.mem_cons_self _ _)⟩,
        fun gg hgg => hall gg (List.mem_cons_of_mem _ hgg)⟩

/-- A successful `collect_bold_files` run is the step-1 dictionary with
each duplicate group resolved. -/
theorem collect_bold_files_eq {env : BoldEnv} {sources : List String}
    {dict m : List (String × List String)}
    (hstep : collectBoldStep1 env sources.dedup = .ok dict)
    (hm : collect_bold_files env sources = .ok m) :
    m = (boldGroups env (dict.map Prod.fst)).foldl
      (fun d gr => resolveGroup env gr.2 d) dict := by
  unfold collect_bold_files at hm
  split at hm
  · next heq =>
    rw [hstep] at heq
    exact Except.noConfusion heq
  · next dict' heq =>
    rw [hstep] at heq
    injection heq with heq
    subst heq
    injection hm with hm
    exact hm.symm

/-- C1: in a successful `collect_bold_files` run, within every group of
more than one surviving run sharing the same canonical BIDS path `bp`, a
run is kept in the returned mapping exactly when it has the maximum volume
count and — unless it is the unique such run — it is the
alphabetically-last of the tied runs; the tie-break value really is an
alphabetical upper bound of the tied runs. -/
theorem collect_bold_files_duplicate_resolution
    (env : BoldEnv) (sources : List String)
    (dict m : List (String × List String)) (bp : String) (g : List String)
    (hstep : collectBoldStep1 env sources.dedup = .ok dict)
    (hm : collect_bold_files env sources = .ok m)
    (hg : g = groupMembers env (dict.map Prod.fst) bp)
    (hlen : 1 < g.length) :
    (∀ p ∈ g, (p ∈ m.map Prod.fst ↔
      (env.nvol p = maxNvol env g ∧
        ((tiedAtMax env g).length = 1 ∨
          p = sortedLast (tiedAtMax env g))))) ∧
    (∀ q ∈ tiedAtMax env g,
      pathLe q (sortedLast (tiedAtMax env g)) = true) := by
  have hmeq := collect_bold_files_eq hstep hm
  have hgne : g ≠ [] := by
    intro h0
    rw [h0] at hlen
    simp at hlen
  have htne : tiedAtMax env g ≠ [] := tiedAtMax_ne_nil hgne
  have hsel_mem := @selectGroup_mem_tiedAtMax env g htne
  have hsel_eq := @selectGroup_eq_sortedLast env g htne
  constructor
  · intro p hp
    have hpk : p ∈ dict.map Prod.fst ∧ env.bidsPath p = some bp :=
      mem_groupMembers.mp (hg ▸ hp)
    rw [hmeq, foldl_resolve_keys]
    constructor
    · rintro ⟨_, hall⟩
      have hgg := group_mem_boldGroups hpk.1 hpk.2
      have hcond := hall (bp, groupMembers env (dict.map Prod.fst) bp) hgg
      rw [← hg] at hcond
      rcases hcond with hc | hc | hc
      · exact absurd hc (ne_of_gt hlen)
      · exact absurd (hg ▸ hp) hc
      · subst hc
        have hksel := mem_tiedAtMax.mp hsel_mem
        exact ⟨hksel.2, .inr hsel_eq⟩
    · rintro ⟨hnv, hdis⟩
      refine ⟨hpk.1, fun gg hgg => ?_⟩
      by_cases hpgg : p ∈ gg.2
      · have hgg' : (gg.1, gg.2) ∈ boldGroups env (dict.map Prod.fst) := by
          rwa [Prod.mk.eta]
        have hmm := mem_boldGroups_eq hgg'
        have hbp' : env.bidsPath p = some gg.1 :=
          (mem_groupMembers.mp (hmm ▸ hpgg)).2
        have hbpe : gg.1 = bp := by
          rw [hbp'] at hpk
          injection hpk.2
        refine .inr (.inr ?_)
        rw [hmm, hbpe, ← hg, hsel_eq]
        rcases hdis with hone | hlast
        · obtain ⟨x, hx⟩ := List.length_eq_one.mp hone
          have hpt : p ∈ tiedAtMax env g :=
            mem_tiedAtMax.mpr ⟨hp, hnv⟩
          rw [hx] at hpt
          simp only [List.mem_singleton] at hpt
          rw [hx, hpt]
          rfl
        · exact hlast
      · exact .inr (.inl hpgg)
  · exact fun q hq => sortedLast_ub q hq

/-- C2 (amended): a surviving run whose BIDS canonicalization fails is
skipped by the duplicate-grouping `except ValueError: continue` — it lands
in no duplicate group and can never be deleted by the duplicate-resolution
pass, so it *remains* a key of the returned mapping. -/
theorem collect_bold_files_failed_canonicalization_kept
    (env : BoldEnv) (sources : List String)
    (dict m : List (String × List String)) (p : String)
    (hstep : collectBoldStep1 env sources.dedup = .ok dict)
    (hm : collect_bold_files env sources = .ok m)
    (hp : p ∈ dict.map Prod.fst) (hfail : env.bidsPath p = none) :
    p ∈ m.map Prod.fst := by
  rw [collect_bold_files_eq hstep hm, foldl_resolve_keys]
  refine ⟨hp, fun gg hgg => .inr (.inl ?_)⟩
  intro hpgg
  have hgg' : (gg.1, gg.2) ∈ boldGroups env (dict.map Prod.fst) := by
    rwa [Prod.mk.eta]
  have hmm := mem_boldGroups_eq hgg'
  have hbp' : env.bidsPath p = some gg.1 :=
    (mem_groupMembers.mp (hmm ▸ hpgg)).2
  rw [hfail] at hbp'
  exact Option.noConfusion hbp'

/-- A concrete environment with two duplicate BOLD runs (identical
canonical BIDS path) of volume counts 120 and 200, both with a T1w
anatomical. -/
def c1env : BoldEnv where
  fm :=
    { db :=
        { tagval := fun _ _ => none,
          associations := fun f q =>
            if (f = "run1" ∨ f = "run2") ∧
                q.contains ("datatype", some "anat") then
              some ["t1"]
            else none,
          metadata := fun _ _ => none },
      canonicalize := fun _ _ => .error "ValueError",
      checkPes := fun _ _ => .ok () }
  nvol := fun f => if f = "run2" then 200 else 120
  bidsPath := fun f =>
    if f = "run1" ∨ f = "run2" then some "sub-01_task-rest_bold" else none

/-- A concrete environment with two duplicate BOLD runs *tied* at the
same volume count, exercising the alphabetical tie-break. -/
def c1tieenv : BoldEnv where
  fm :=
    { db :=
        { tagval := fun _ _ => none,
          associations := fun f q =>
            if (f = "runA" ∨ f = "runB") ∧
                q.contains ("datatype", some "anat") then
              some ["t1"]
            else none,
          metadata := fun _ _ => none },
      canonicalize := fun _ _ => .error "ValueError",
      checkPes := fun _ _ => .ok () }
  nvol := fun _ => 150
  bidsPath := fun f =>
    if f = "runA" ∨ f = "runB" then some "sub-02_task-rest_bold" else none

/-- Witness for `collect_bold_files_duplicate_resolution`: of two
duplicate runs with volume counts 120 and 200 only the 200-volume run is
kept, and of two runs tied at 150 volumes only the alphabetically-last
path is kept. -/
theorem collect_bold_files_duplicate_resolution_witness :
    (collect_bold_files c1env ["run1", "run2"] =
      Except.ok [("run2", ["run2", "t1"])] ∧
    "run1" ∉ [("run2", ["run2", "t1"])].map Prod.fst ∧
    "run2" ∈ [("run2", ["run2", "t1"])].map Prod.fst) ∧
    (collect_bold_files c1tieenv ["runA", "runB"] =
      Except.ok [("runB", ["runB", "t1"])] ∧
    "runA" ∉ [("runB", ["runB", "t1"])].map Prod.fst) := by
  refine ⟨⟨rfl, ?_, by decide⟩, rfl, ?_⟩
  · intro hmem
    have hiff := (collect_bold_files_duplicate_resolution c1env
      ["run1", "run2"]
      [("run1", ["run1", "t1"]), ("run2", ["run2", "t1"])]
      [("run2", ["run2", "t1"])] "sub-01_task-rest_bold" ["run1", "run2"]
      rfl rfl rfl (by decide)).1 "run1" (by decide)
    exact absurd (hiff.mp hmem).1 (by decide)
  · intro hmem
    have hiff := (collect_bold_files_duplicate_resolution c1tieenv
      ["runA", "runB"]
      [("runA", ["runA", "t1"]), ("runB", ["runB", "t1"])]
      [("runB", ["runB", "t1"])] "sub-02_task-rest_bold" ["runA", "runB"]
      rfl rfl rfl (by decide)).1 "runA" (by decide)
    rcases (hiff.mp hmem).2 with hc | hc <;> exact absurd hc (by decide)

/-- A concrete environment in which the single surviving run fails BIDS
canonicalization. -/
def c2env : BoldEnv where
  fm :=
    { db :=
        { tagval := fun _ _ => none,
          associations := fun f q =>
            if f = "b" ∧ q.contains ("datatype", some "anat") then
              some ["t1"]
            else none,
          metadata := fun _ _ => none },
      canonicalize := fun _ _ => .error "ValueError",
      checkPes := fun _ _ => .ok () }
  nvol := fun _ => 100
  bidsPath := fun _ => none

/-- C2 (counterexample): a run whose canonicalization fails (raises
`ValueError`) is *not* dropped from the returned mapping — on `c2env` the
run `"b"` fails canonicalization yet is a key of the result. -/
theorem collect_bold_files_canonicalization_counterexample :
    c2env.bidsPath "b" = none ∧
    collect_bold_files c2env ["b"] = Except.ok [("b", ["b", "t1"])] ∧
    "b" ∈ [("b", ["b", "t1"])].map Prod.fst :=
  ⟨rfl, rfl, by decide⟩

/-- Witness for `collect_bold_files_failed_canonicalization_kept` at the
concrete environment `c2env`. -/
theorem collect_bold_files_failed_canonicalization_kept_witness :
    collectBoldStep1 c2env (["b"] : List String).dedup =
      Except.ok [("b", ["b", "t1"])] ∧
    c2env.bidsPath "b" = none ∧
    "b" ∈ [("b", ["b", "t1"])].map Prod.fst :=
  ⟨rfl, rfl,
    collect_bold_files_failed_canonicalization_kept c2env ["b"]
      [("b", ["b", "t1"])] [("b", ["b", "t1"])] "b" rfl rfl (by decide) rfl⟩

end Halfpipe
